import Mathlib

/-!
Verification development for the `py-embed` embedding service
(`app/main.py`, `app/routers/encode.py`, `app/internal/model.py`).

Modelling conventions:
* Vector components are real numbers (the service's floats stand for reals in
  the specification's mathematics).
* The two external capabilities — the sentence-transformer model and the
  langchain text splitter — are not part of this repository; handlers take
  them as explicit function parameters (`enc`, `split`), exactly at the
  arities the source calls them with.
* The record store is a Postgres table reached through SQL strings in the
  source.  Its state is modelled as a list of rows plus a fresh-id counter;
  the similarity query's semantics (filter on score, order descending, limit)
  is the shallow embedding of the SQL text in `search_embeddings`, with the
  score function `1 - cosine_distance(embedding, q)` modelled from the spec's
  definition of cosine distance (the operator itself lives in the external
  pgvector engine).
* Pydantic request bodies become structures with the declared fields, with
  defaults applied at parse time.
-/

namespace PyEmbed

/-- Errors a request handler can surface.  `overlapConfigError` is the
configuration failure of the splitter constructor, `attributeError` is
Python's failed attribute lookup, `indexError` is Python's out-of-range list
indexing, `dimensionMismatch` is the store's cross-dimension hard error. -/
inductive PipelineError where
  | overlapConfigError
  | attributeError
  | indexError
  | dimensionMismatch
  deriving DecidableEq, Repr

/-- A persisted row of the `embeddings` table: the columns named in the
INSERT statement of `create_embeddings`, with the generated uuid modelled as
a natural number. -/
structure Record where
  uuid : Nat
  text : String
  reference_id : String
  embedding : List ℝ
  language : Option String
  meta : String

/-- The store's state: the table rows in insertion order plus the id
generator (Postgres generates a fresh uuid per insert). -/
structure StoreState where
  records : List Record
  nextId : Nat

/-- Modelled from the spec: the Chunker's constructor validation
(`new_text_splitter` builds a `RecursiveCharacterTextSplitter`, a component
whose implementation is outside this repository; §4.1 specifies
"configuration error if `overlap ≥ max_size`").  On success it returns the
configured `(chunk_size, overlap)` pair that `split_text` will use. -/
def new_text_splitter (chunk_size chunk_overlap : Nat) :
    Except PipelineError (Nat × Nat) :=
  if chunk_size ≤ chunk_overlap then .error .overlapConfigError
  else .ok (chunk_size, chunk_overlap)

/-- Request body of `POST /embeddings/search` (`SearchEmbeddingsBody`). -/
structure SearchEmbeddingsBody where
  query : String
  language : Option String
  cutoff : ℝ
  top_k : Nat

/-- A row of the search response (`SearchResult`). -/
structure SearchResult where
  uuid : Nat
  text : String
  reference_id : String
  score : ℝ

/-- Request body of `POST /embeddings` (`CreateEmbeddingsBody`); `meta` is
kept in its serialized form (the handler stores `json.dumps(data.meta)`). -/
structure CreateEmbeddingsBody where
  text : String
  reference_id : String
  meta : String
  language : Option String
  batch_size : Nat
  chunk_size : Nat

/-- One element of the ingestion response (`EmbeddingsOutputItem`). -/
structure EmbeddingsOutputItem where
  uuid : Nat
  text : String
  embedding : List ℝ

/-- The ingestion response (`CreateEmbeddingsOutput`). -/
structure CreateEmbeddingsOutput where
  items : List EmbeddingsOutputItem

/-- Request body of `POST /encode/query` (`EncodeQueryBody`): its only
declared field is `query`. -/
structure EncodeQueryBody where
  query : String

/-- Request body of `POST /encode/` (`EncodeBody`). -/
structure EncodeBody where
  text : String
  batch_size : Nat
  chunk_size : Nat

/-- One input item of `POST /encode/bulk` (`BulkEncodeItem`). -/
structure BulkEncodeItem where
  id : String
  text : String

/-- Request body of `POST /encode/bulk` (`BulkEncodeBody`). -/
structure BulkEncodeBody where
  texts : List BulkEncodeItem
  batch_size : Nat
  chunk_size : Nat

/-- One element of the `/encode/` response (`EncodeOutput`). -/
structure EncodeOutput where
  text : String
  embedding : List ℝ

/-- One element of the `/encode/bulk` response (`BulkEncodeOutput`). -/
structure BulkEncodeOutput where
  id : String
  text : String
  embedding : List ℝ

/-- Dot product of two vectors, pairwise products summed; like pgvector it
only consumes the common length (the handlers never reach this case with
unequal lengths because the store rejects cross-dimension queries first). -/
def dotp (a b : List ℝ) : ℝ := (List.zipWith (· * ·) a b).sum

/-- Modelled from the spec: pgvector's `cosine_distance` operator (external
storage-engine capability), "1 minus the normalized dot product of two
vectors" (glossary). -/
noncomputable def cosineDistance (a b : List ℝ) : ℝ :=
  1 - dotp a b / (Real.sqrt (dotp a a) * Real.sqrt (dotp b b))

/-- The per-row score computed by the SQL of `search_embeddings`:
`1 - cosine_distance(embedding, (%s))` with the query vector bound. -/
noncomputable def scoreOf (q : List ℝ) (r : Record) : ℝ :=
  1 - cosineDistance r.embedding q

/-- Insert an element into a list that is sorted descending by `key`. -/
noncomputable def insertDesc (key : α → ℝ) (x : α) : List α → List α
  | [] => [x]
  | y :: ys => if key y ≤ key x then x :: y :: ys else y :: insertDesc key x ys

/-- Sort a list descending by `key` (the `ORDER BY score DESC` of the SQL). -/
noncomputable def sortDesc (key : α → ℝ) : List α → List α
  | [] => []
  | x :: xs => insertDesc key x (sortDesc key xs)

/-- The response row built from a matching record. -/
noncomputable def mkResult (q : List ℝ) (r : Record) : SearchResult :=
  ⟨r.uuid, r.text, r.reference_id, scoreOf q r⟩

/-- The similarity query sent by `search_embeddings`:
`SELECT uuid, text, reference_id, 1 - cosine_distance(embedding, q) AS score
FROM embeddings` then `WHERE score > cutoff ORDER BY score DESC LIMIT top_k`.
Comparing embeddings of unequal dimension is a hard error of the engine
(spec §4.3), checked before any row is scored. -/
noncomputable def storeSearch (records : List Record) (q : List ℝ)
    (cutoff : ℝ) (top_k : Nat) : Except PipelineError (List SearchResult) :=
  if records.all (fun r => r.embedding.length == q.length) then
    .ok (((sortDesc (scoreOf q)
      (records.filter (fun r => decide (cutoff < scoreOf q r)))).take
        top_k).map (mkResult q))
  else .error .dimensionMismatch

/-- Handler of `POST /embeddings/search`: encode the query with the external
model (`encOne`, the single-string form of `model.encode`), then run the
similarity query.  `data.language` is never read. -/
noncomputable def search_embeddings (encOne : String → List ℝ)
    (st : StoreState) (data : SearchEmbeddingsBody) :
    Except PipelineError (List SearchResult) :=
  storeSearch st.records (encOne data.query) data.cutoff data.top_k

/-- The insertion loop of `create_embeddings`: for each `(text, embedding)`
pair in order, INSERT a row (fresh uuid, commit) and record the output item. -/
def insertLoop (reference_id : String) (language : Option String)
    (meta : String) :
    StoreState → List (String × List ℝ) → StoreState × List EmbeddingsOutputItem
  | st, [] => (st, [])
  | st, (t, e) :: rest =>
    let r : Record := ⟨st.nextId, t, reference_id, e, language, meta⟩
    let step := insertLoop reference_id language meta
      ⟨st.records ++ [r], st.nextId + 1⟩ rest
    (step.1, ⟨st.nextId, t, e⟩ :: step.2)

/-- Handler of `POST /embeddings` (`create_embeddings`): build the splitter
with overlap fixed at 20, split the text, encode all chunks through the
external model (`enc documents batch_size`), then `zip(documents, output)`
and insert each pair in order.  `zip` truncates to the shorter list, exactly
as Python's does. -/
def create_embeddings (split : Nat → Nat → String → List String)
    (enc : List String → Nat → List (List ℝ))
    (st : StoreState) (data : CreateEmbeddingsBody) :
    Except PipelineError (StoreState × CreateEmbeddingsOutput) :=
  match new_text_splitter data.chunk_size 20 with
  | .error e => .error e
  | .ok (cs, ov) =>
    let documents := split cs ov data.text
    let output := enc documents data.batch_size
    let step := insertLoop data.reference_id data.language data.meta st
      (documents.zip output)
    .ok (step.1, ⟨step.2⟩)

/-- Python attribute lookup of `batch_size` on an `EncodeQueryBody`: the
pydantic model declares only `query`, so the lookup finds nothing (pydantic
raises `AttributeError` for undeclared fields). -/
def batchSizeAttr (_ : EncodeQueryBody) : Option Nat := none

/-- Handler of `POST /encode/query` (`encode_query`): it reads
`data.batch_size` before calling the model, so the lookup's outcome gates the
call. -/
def encode_query (encOne : String → Nat → List ℝ)
    (data : EncodeQueryBody) : Except PipelineError (List ℝ) :=
  match batchSizeAttr data with
  | none => .error .attributeError
  | some bs => .ok (encOne data.query bs)

/-- Handler of `POST /encode/` (`encode_text_corpus`): split with overlap 20,
encode the chunks, and zip chunks with vectors into the response (Python
`zip`, truncating). -/
def encode_text_corpus (split : Nat → Nat → String → List String)
    (enc : List String → Nat → List (List ℝ))
    (data : EncodeBody) : Except PipelineError (List EncodeOutput) :=
  match new_text_splitter data.chunk_size 20 with
  | .error e => .error e
  | .ok (cs, ov) =>
    let documents := split cs ov data.text
    let output := enc documents data.batch_size
    .ok ((documents.zip output).map (fun p => ⟨p.1, p.2⟩))

/-- Handler of `POST /encode/bulk` (`bulk_encode`): flatten every item's
chunks (chunk inherits the item's id), encode the flattened list, then index
`embeddings_list[i]` per input entry — an `IndexError` when the model returns
fewer vectors than entries; surplus vectors are ignored. -/
def bulk_encode (split : Nat → Nat → String → List String)
    (enc : List String → Nat → List (List ℝ))
    (data : BulkEncodeBody) : Except PipelineError (List BulkEncodeOutput) :=
  match new_text_splitter data.chunk_size 20 with
  | .error e => .error e
  | .ok (cs, ov) =>
    let input_data := data.texts.flatMap
      (fun item => (split cs ov item.text).map (fun t => (item.id, t)))
    let embeddings_list := enc (input_data.map Prod.snd) data.batch_size
    if input_data.length ≤ embeddings_list.length then
      .ok ((input_data.zip embeddings_list).map
        (fun p => ⟨p.1.1, p.1.2, p.2⟩))
    else .error .indexError

/-- Acknowledgment of the delete-by-uuid route: the body of the handler is
`return \x7b"uuid": uuid\x7d`. -/
structure DeleteByUuidAck where
  uuid : Nat
  deriving DecidableEq

/-- Acknowledgment of the delete-by-reference route. -/
structure DeleteByReferenceAck where
  reference_id : String
  deriving DecidableEq

/-- Handler of `DELETE /embeddings/\x7buuid\x7d` (first `delete_embeddings`):
its entire body is `return \x7b"uuid": uuid\x7d` — it issues no SQL, so the
store state passes through untouched. -/
def delete_embeddings_by_uuid (st : StoreState) (uuid : Nat) :
    StoreState × DeleteByUuidAck :=
  (st, ⟨uuid⟩)

/-- Handler of `DELETE /embeddings/reference/\x7breference_id\x7d` (second
`delete_embeddings`): its entire body is `return \x7b"reference_id":
reference_id\x7d` — it issues no SQL, so the store state passes through
untouched. -/
def delete_embeddings_by_reference (st : StoreState) (reference_id : String) :
    StoreState × DeleteByReferenceAck :=
  (st, ⟨reference_id⟩)

/-! Auxiliary lemmas about the descending insertion sort and the insertion
loop. -/

theorem insertDesc_perm (key : α → ℝ) (x : α) (l : List α) :
    List.Perm (insertDesc key x l) (x :: l) := by
  induction l with
  | nil => rfl
  | cons y ys ih =>
    by_cases h : key y ≤ key x
    · simp [insertDesc, h]
    · simp only [insertDesc, if_neg h]
      exact (ih.cons y).trans (List.Perm.swap x y ys)

theorem insertDesc_pairwise (key : α → ℝ) (x : α) (l : List α)
    (h : l.Pairwise (fun a b => key b ≤ key a)) :
    (insertDesc key x l).Pairwise (fun a b => key b ≤ key a) := by
  induction l with
  | nil => simp [insertDesc]
  | cons y ys ih =>
    rcases List.pairwise_cons.mp h with ⟨hy, hys⟩
    by_cases hxy : key y ≤ key x
    · simp only [insertDesc, if_pos hxy]
      refine List.pairwise_cons.mpr ⟨?_, h⟩
      intro z hz
      rcases List.mem_cons.mp hz with rfl | hz'
      · exact hxy
      · exact le_trans (hy z hz') hxy
    · simp only [insertDesc, if_neg hxy]
      refine List.pairwise_cons.mpr ⟨?_, ih hys⟩
      intro z hz
      rcases List.mem_cons.mp ((insertDesc_perm key x ys).mem_iff.mp hz) with
        rfl | hz'
      · exact le_of_lt (lt_of_not_le hxy)
      · exact hy z hz'

theorem sortDesc_perm (key : α → ℝ) (l : List α) :
    List.Perm (sortDesc key l) l := by
  induction l with
  | nil => rfl
  | cons x xs ih =>
    exact (insertDesc_perm key x (sortDesc key xs)).trans (ih.cons x)

theorem sortDesc_pairwise (key : α → ℝ) (l : List α) :
    (sortDesc key l).Pairwise (fun a b => key b ≤ key a) := by
  induction l with
  | nil => simp [sortDesc]
  | cons x xs ih => exact insertDesc_pairwise key x (sortDesc key xs) ih

theorem insertLoop_spec (reference_id : String) (language : Option String)
    (meta : String) (st : StoreState) (pairs : List (String × List ℝ)) :
    (insertLoop reference_id language meta st pairs).2.map (fun i => i.text) =
      pairs.map Prod.fst ∧
    (insertLoop reference_id language meta st pairs).2.map
      (fun i => i.embedding) = pairs.map Prod.snd := by
  induction pairs generalizing st with
  | nil => simp [insertLoop]
  | cons p rest ih =>
    obtain ⟨t, e⟩ := p
    simpa [insertLoop] using
      ih ⟨st.records ++ [⟨st.nextId, t, reference_id, e, language, meta⟩],
        st.nextId + 1⟩

/-! Claim theorems. -/

/-- C2: the claim says delete-by-id removes exactly one record when present.
The handler's body is only `return \x7b"uuid": uuid\x7d`: for every store
state and every uuid it leaves the store exactly as it was (zero records
removed, present or not) and returns the echo acknowledgment. -/
theorem delete_by_uuid_is_noop (st : StoreState) (u : Nat) :
    delete_embeddings_by_uuid st u = (st, ⟨u⟩) := rfl

/-- C4: the claim says the query-only encode never fails.  The handler reads
`data.batch_size`, but `EncodeQueryBody` declares only `query`, so the
attribute lookup fails: for every external encoder and every input the
handler raises AttributeError and never returns an embedding. -/
theorem encode_query_always_fails (encOne : String → Nat → List ℝ)
    (data : EncodeQueryBody) :
    encode_query encOne data = .error .attributeError := rfl

/-- C9: the search handler reads only `query`, `cutoff` and `top_k` from the
request body; two requests agreeing on those three fields — whatever their
`language` fields hold — produce identical results on every store with every
encoder. -/
theorem search_language_is_noop (encOne : String → List ℝ) (st : StoreState)
    (b₁ b₂ : SearchEmbeddingsBody) (hq : b₁.query = b₂.query)
    (hc : b₁.cutoff = b₂.cutoff) (hk : b₁.top_k = b₂.top_k) :
    search_embeddings encOne st b₁ = search_embeddings encOne st b₂ := by
  simp [search_embeddings, hq, hc, hk]

theorem search_language_is_noop_witness :
    search_embeddings (fun _ => []) ⟨[], 0⟩ ⟨"hello", some "en", 1/5, 10⟩ =
      search_embeddings (fun _ => []) ⟨[], 0⟩ ⟨"hello", none, 1/5, 10⟩ :=
  search_language_is_noop (fun _ => []) ⟨[], 0⟩ _ _ rfl rfl rfl

/-- C10: when the splitter produces no chunks (for instance on empty input
text) and the configuration is valid (the fixed overlap 20 is below the
chunk size), ingestion inserts nothing — the store state is returned
unchanged — and the item list is empty. -/
theorem create_embeddings_empty_chunks (split : Nat → Nat → String → List String)
    (enc : List String → Nat → List (List ℝ)) (st : StoreState)
    (b : CreateEmbeddingsBody) (hcs : 20 < b.chunk_size)
    (hempty : split b.chunk_size 20 b.text = []) :
    create_embeddings split enc st b = .ok (st, ⟨[]⟩) := by
  unfold create_embeddings new_text_splitter
  rw [if_neg (not_le.mpr hcs)]
  simp [hempty, insertLoop]

theorem create_embeddings_empty_chunks_witness :
    create_embeddings (fun _ _ _ => []) (fun _ _ => []) ⟨[], 0⟩
      ⟨"", "refA", "", none, 32, 1000⟩ = .ok (⟨[], 0⟩, ⟨[]⟩) :=
  create_embeddings_empty_chunks (fun _ _ _ => []) (fun _ _ => []) ⟨[], 0⟩
    ⟨"", "refA", "", none, 32, 1000⟩ (by decide) rfl

/-- C5 counterexample: one chunk but an encoder returning no vectors — the
handler succeeds with an empty item list instead of reporting an encoding
failure, silently dropping the chunk. -/
theorem mismatch_not_an_error :
    create_embeddings (fun _ _ t => [t]) (fun _ _ => []) ⟨[], 0⟩
      ⟨"abc", "refA", "", none, 32, 1000⟩ = .ok (⟨[], 0⟩, ⟨[]⟩) := rfl

/-- C5: contrary to the claim, a vector-count mismatch is not an encoding
failure in the zipping handlers: for every valid configuration
`create_embeddings` and `encode_text_corpus` succeed with min(number of
chunks, number of vectors) results — a short encoder output silently drops
the unpaired chunks — while `bulk_encode` alone fails (IndexError) when the
encoder returns fewer vectors than entries, and succeeds with exactly one
output per entry otherwise. -/
theorem bulk_encode_eq (split : Nat → Nat → String → List String)
    (enc : List String → Nat → List (List ℝ)) (bb : BulkEncodeBody)
    (hb : 20 < bb.chunk_size) :
    bulk_encode split enc bb =
      if (bb.texts.flatMap (fun item => (split bb.chunk_size 20
            item.text).map (fun t => (item.id, t)))).length ≤
          (enc ((bb.texts.flatMap (fun item => (split bb.chunk_size 20
            item.text).map (fun t => (item.id, t)))).map Prod.snd)
            bb.batch_size).length then
        .ok (((bb.texts.flatMap (fun item => (split bb.chunk_size 20
            item.text).map (fun t => (item.id, t)))).zip
          (enc ((bb.texts.flatMap (fun item => (split bb.chunk_size 20
            item.text).map (fun t => (item.id, t)))).map Prod.snd)
            bb.batch_size)).map (fun p => ⟨p.1.1, p.1.2, p.2⟩))
      else .error .indexError := by
  unfold bulk_encode new_text_splitter
  rw [if_neg (not_le.mpr hb)]

theorem encode_mismatch_behaviour (split : Nat → Nat → String → List String)
    (enc : List String → Nat → List (List ℝ)) (st : StoreState)
    (bc : CreateEmbeddingsBody) (be : EncodeBody) (bb : BulkEncodeBody)
    (hc : 20 < bc.chunk_size) (he : 20 < be.chunk_size)
    (hb : 20 < bb.chunk_size) :
    (∃ st' out, create_embeddings split enc st bc = .ok (st', out) ∧
      out.items.length = min (split bc.chunk_size 20 bc.text).length
        (enc (split bc.chunk_size 20 bc.text) bc.batch_size).length) ∧
    (∃ outs, encode_text_corpus split enc be = .ok outs ∧
      outs.length = min (split be.chunk_size 20 be.text).length
        (enc (split be.chunk_size 20 be.text) be.batch_size).length) ∧
    ((enc ((bb.texts.flatMap (fun item => (split bb.chunk_size 20
          item.text).map (fun t => (item.id, t)))).map Prod.snd)
        bb.batch_size).length <
        (bb.texts.flatMap (fun item => (split bb.chunk_size 20
          item.text).map (fun t => (item.id, t)))).length →
      bulk_encode split enc bb = .error .indexError) ∧
    ((bb.texts.flatMap (fun item => (split bb.chunk_size 20
          item.text).map (fun t => (item.id, t)))).length ≤
        (enc ((bb.texts.flatMap (fun item => (split bb.chunk_size 20
          item.text).map (fun t => (item.id, t)))).map Prod.snd)
          bb.batch_size).length →
      ∃ outs, bulk_encode split enc bb = .ok outs ∧
        outs.length = (bb.texts.flatMap (fun item => (split bb.chunk_size 20
          item.text).map (fun t => (item.id, t)))).length) := by
  refine ⟨?_, ?_, ?_, ?_⟩
  · unfold create_embeddings new_text_splitter
    rw [if_neg (not_le.mpr hc)]
    have h := congrArg List.length ((insertLoop_spec bc.reference_id
      bc.language bc.meta st ((split bc.chunk_size 20 bc.text).zip
        (enc (split bc.chunk_size 20 bc.text) bc.batch_size))).1)
    simp only [List.length_map] at h
    exact ⟨_, _, rfl, by rw [h, List.length_zip]⟩
  · unfold encode_text_corpus new_text_splitter
    rw [if_neg (not_le.mpr he)]
    exact ⟨_, rfl, by rw [List.length_map, List.length_zip]⟩
  · intro hlt
    rw [bulk_encode_eq split enc bb hb, if_neg (not_le.mpr hlt)]
  · intro hle
    rw [bulk_encode_eq split enc bb hb, if_pos hle]
    exact ⟨_, rfl, by rw [List.length_map, List.length_zip, min_eq_left hle]⟩

theorem encode_mismatch_behaviour_witness :
    (∃ st' out, create_embeddings (fun _ _ t => [t]) (fun _ _ => []) ⟨[], 0⟩
      ⟨"abc", "refA", "", none, 32, 1000⟩ = .ok (st', out) ∧
      out.items.length = min 1 0) ∧
    (∃ outs, encode_text_corpus (fun _ _ t => [t]) (fun _ _ => [])
      ⟨"abc", 32, 1000⟩ = .ok outs ∧ outs.length = min 1 0) ∧
    bulk_encode (fun _ _ t => [t]) (fun _ _ => [])
      ⟨[⟨"d1", "abc"⟩], 32, 1000⟩ = .error .indexError := by
  obtain ⟨h1, h2, h3, h4⟩ := encode_mismatch_behaviour (fun _ _ t => [t])
    (fun _ _ => []) ⟨[], 0⟩ ⟨"abc", "refA", "", none, 32, 1000⟩
    ⟨"abc", 32, 1000⟩ ⟨[⟨"d1", "abc"⟩], 32, 1000⟩
    (by decide) (by decide) (by decide)
  exact ⟨h1, h2, h3 (by decide)⟩

/-- C6 counterexample: a request with batch_size 0 and a valid chunk size is
not rejected: the handler reaches the external encoder (its vector lands in
the inserted record and the output item) and succeeds, so no configuration
error is raised before the external call. -/
theorem batch_size_zero_not_rejected :
    create_embeddings (fun _ _ t => [t]) (fun _ _ => [[0]]) ⟨[], 0⟩
      ⟨"abc", "refA", "", none, 0, 1000⟩ =
      .ok (⟨[⟨0, "abc", "refA", [0], none, ""⟩], 1⟩, ⟨[⟨0, "abc", [0]⟩]⟩) :=
  rfl

/-- C6: amended — the overlap half of the claim holds: when the fixed
overlap 20 reaches the chunk size the request is rejected as a configuration
error, identically for every splitter and encoder and with no store write.
The batch-size half fails: batch_size is never validated; for every batch
size (zero included) a valid chunk size makes the handler succeed, its items
carrying the external encoder's vectors. -/
theorem config_error_scope (split : Nat → Nat → String → List String)
    (enc : List String → Nat → List (List ℝ)) (st : StoreState)
    (b : CreateEmbeddingsBody) :
    (b.chunk_size ≤ 20 →
      create_embeddings split enc st b = .error .overlapConfigError) ∧
    (20 < b.chunk_size →
      ∃ st' out, create_embeddings split enc st b = .ok (st', out) ∧
        out.items.map (fun i => i.embedding) =
          ((split b.chunk_size 20 b.text).zip
            (enc (split b.chunk_size 20 b.text) b.batch_size)).map
              Prod.snd) := by
  constructor
  · intro h
    unfold create_embeddings new_text_splitter
    rw [if_pos h]
  · intro h
    unfold create_embeddings new_text_splitter
    rw [if_neg (not_le.mpr h)]
    exact ⟨_, _, rfl, (insertLoop_spec _ _ _ _ _).2⟩

theorem config_error_scope_witness :
    create_embeddings (fun _ _ t => [t]) (fun _ _ => [[0]]) ⟨[], 0⟩
      ⟨"abc", "refA", "", none, 32, 10⟩ = .error .overlapConfigError ∧
    ∃ st' out, create_embeddings (fun _ _ t => [t]) (fun _ _ => [[0]])
      ⟨[], 0⟩ ⟨"abc", "refA", "", none, 0, 1000⟩ = .ok (st', out) ∧
      out.items.map (fun i => i.embedding) = [[0]] := by
  refine ⟨(config_error_scope (fun _ _ t => [t]) (fun _ _ => [[0]]) ⟨[], 0⟩
    ⟨"abc", "refA", "", none, 32, 10⟩).1 (by decide), ?_⟩
  obtain ⟨st', out, h1, h2⟩ := (config_error_scope (fun _ _ t => [t])
    (fun _ _ => [[0]]) ⟨[], 0⟩ ⟨"abc", "refA", "", none, 0, 1000⟩).2
    (by decide)
  exact ⟨st', out, h1, by rw [h2]; rfl⟩

/-- C7: when the external encoder honours its contract (one vector per input
string, positionally aligned with its input order), ingestion output aligns
one-to-one and in order with the chunk list: the i-th item's text is the
i-th chunk and the i-th item's embedding is the encoder's i-th vector. -/
theorem ingest_preserves_order (split : Nat → Nat → String → List String)
    (enc : List String → Nat → List (List ℝ)) (st : StoreState)
    (b : CreateEmbeddingsBody) (hcs : 20 < b.chunk_size)
    (hlen : (enc (split b.chunk_size 20 b.text) b.batch_size).length =
      (split b.chunk_size 20 b.text).length) :
    ∃ st' out, create_embeddings split enc st b = .ok (st', out) ∧
      out.items.map (fun i => i.text) = split b.chunk_size 20 b.text ∧
      out.items.map (fun i => i.embedding) =
        enc (split b.chunk_size 20 b.text) b.batch_size := by
  unfold create_embeddings new_text_splitter
  rw [if_neg (not_le.mpr hcs)]
  refine ⟨_, _, rfl, ?_, ?_⟩
  · rw [(insertLoop_spec _ _ _ _ _).1]
    exact List.map_fst_zip _ _ (le_of_eq hlen.symm)
  · rw [(insertLoop_spec _ _ _ _ _).2]
    exact List.map_snd_zip _ _ (le_of_eq hlen)

theorem ingest_preserves_order_witness :
    ∃ st' out, create_embeddings (fun _ _ t => [t])
      (fun ds _ => ds.map (fun _ => [1])) ⟨[], 0⟩
      ⟨"abc", "refA", "", none, 32, 1000⟩ = .ok (st', out) ∧
      out.items.map (fun i => i.text) = ["abc"] ∧
      out.items.map (fun i => i.embedding) = [[1]] := by
  obtain ⟨st', out, h1, h2, h3⟩ := ingest_preserves_order (fun _ _ t => [t])
    (fun ds _ => ds.map (fun _ => [1])) ⟨[], 0⟩
    ⟨"abc", "refA", "", none, 32, 1000⟩ (by decide) rfl
  exact ⟨st', out, h1, h2, h3⟩

/-- C8: the chunk overlap is fixed at the internal value 20 in every
chunking handler and the request shapes carry no overlap field: any two
splitters that agree at overlap 20 produce identical results for ingestion,
direct encode and bulk encode, on every request, store and encoder. -/
theorem overlap_fixed_at_twenty (split₁ split₂ : Nat → Nat → String → List String)
    (hagree : ∀ cs t, split₁ cs 20 t = split₂ cs 20 t)
    (enc : List String → Nat → List (List ℝ)) (st : StoreState)
    (bc : CreateEmbeddingsBody) (be : EncodeBody) (bb : BulkEncodeBody) :
    create_embeddings split₁ enc st bc = create_embeddings split₂ enc st bc ∧
    encode_text_corpus split₁ enc be = encode_text_corpus split₂ enc be ∧
    bulk_encode split₁ enc bb = bulk_encode split₂ enc bb := by
  refine ⟨?_, ?_, ?_⟩
  · by_cases h : bc.chunk_size ≤ 20 <;>
      simp [create_embeddings, new_text_splitter, h, hagree]
  · by_cases h : be.chunk_size ≤ 20 <;>
      simp [encode_text_corpus, new_text_splitter, h, hagree]
  · by_cases h : bb.chunk_size ≤ 20 <;>
      simp [bulk_encode, new_text_splitter, h, hagree]

theorem overlap_fixed_at_twenty_witness :
    (create_embeddings (fun _ ov t => if ov = 20 then [] else [t])
        (fun _ _ => []) ⟨[], 0⟩ ⟨"abc", "refA", "", none, 32, 1000⟩ =
      create_embeddings (fun _ _ _ => []) (fun _ _ => []) ⟨[], 0⟩
        ⟨"abc", "refA", "", none, 32, 1000⟩) ∧
    (encode_text_corpus (fun _ ov t => if ov = 20 then [] else [t])
        (fun _ _ => []) ⟨"abc", 32, 1000⟩ =
      encode_text_corpus (fun _ _ _ => []) (fun _ _ => []) ⟨"abc", 32, 1000⟩) ∧
    (bulk_encode (fun _ ov t => if ov = 20 then [] else [t])
        (fun _ _ => []) ⟨[⟨"d1", "abc"⟩], 32, 1000⟩ =
      bulk_encode (fun _ _ _ => []) (fun _ _ => []) ⟨[⟨"d1", "abc"⟩], 32, 1000⟩) :=
  overlap_fixed_at_twenty (fun _ ov t => if ov = 20 then [] else [t])
    (fun _ _ _ => []) (fun _ t => by simp) (fun _ _ => []) ⟨[], 0⟩
    ⟨"abc", "refA", "", none, 32, 1000⟩ ⟨"abc", 32, 1000⟩
    ⟨[⟨"d1", "abc"⟩], 32, 1000⟩

/-! Ranking lemmas: properties of `take k` of a descending sort. -/

theorem take_sortDesc_pairwise (key : α → ℝ) (l : List α) (k : Nat) :
    ((sortDesc key l).take k).Pairwise (fun a b => key b ≤ key a) :=
  (sortDesc_pairwise key l).sublist (List.take_sublist k (sortDesc key l))

theorem mem_of_mem_take_sortDesc (key : α → ℝ) (l : List α) (k : Nat)
    (a : α) (ha : a ∈ (sortDesc key l).take k) : a ∈ l :=
  (sortDesc_perm key l).mem_iff.mp (List.mem_of_mem_take ha)

theorem mem_take_sortDesc_of_short (key : α → ℝ) (l : List α) (k : Nat)
    (hlen : l.length ≤ k) (a : α) (ha : a ∈ l) :
    a ∈ (sortDesc key l).take k := by
  rw [List.take_of_length_le (by rw [(sortDesc_perm key l).length_eq]; exact hlen)]
  exact (sortDesc_perm key l).mem_iff.mpr ha

theorem omitted_le_taken_sortDesc (key : α → ℝ) (l : List α) (k : Nat)
    (a : α) (ha : a ∈ l) (hnot : a ∉ (sortDesc key l).take k) :
    ∀ b ∈ (sortDesc key l).take k, key a ≤ key b := by
  intro b hb
  have has : a ∈ sortDesc key l := (sortDesc_perm key l).mem_iff.mpr ha
  have hsplit := List.take_append_drop k (sortDesc key l)
  have hp := sortDesc_pairwise key l
  rw [← hsplit] at hp
  have hcross := (List.pairwise_append.mp hp).2.2
  rcases List.mem_append.mp (by rw [hsplit]; exact has) with h1 | h2
  · exact absurd h1 hnot
  · exact hcross b hb a h2

/-- C1: for every store whose records match the query's dimension, the
similarity query succeeds, and its result list is sorted descending by the
score `1 - cosine_distance(embedding, q)`, holds at most top_k rows, holds
only rows built from stored records scoring strictly above the cutoff,
holds every qualifying record whenever at most top_k of them qualify, and
omits a qualifying record only in favour of rows scoring at least as
high. -/
theorem search_filters_ranks_truncates (records : List Record) (q : List ℝ)
    (cutoff : ℝ) (top_k : Nat)
    (hdim : ∀ r ∈ records, r.embedding.length = q.length) :
    ∃ res, storeSearch records q cutoff top_k = .ok res ∧
      res.Pairwise (fun a b => b.score ≤ a.score) ∧
      res.length ≤ top_k ∧
      (∀ x ∈ res, ∃ r ∈ records, cutoff < scoreOf q r ∧ x = mkResult q r) ∧
      ((records.filter (fun r => decide (cutoff < scoreOf q r))).length ≤
          top_k →
        ∀ r ∈ records, cutoff < scoreOf q r → mkResult q r ∈ res) ∧
      (∀ r ∈ records, cutoff < scoreOf q r → mkResult q r ∉ res →
        ∀ x ∈ res, scoreOf q r ≤ x.score) := by
  have hall : records.all (fun r => r.embedding.length == q.length) = true := by
    rw [List.all_eq_true]
    intro r hr
    exact beq_iff_eq.mpr (hdim r hr)
  unfold storeSearch
  rw [if_pos hall]
  refine ⟨_, rfl, ?_, ?_, ?_, ?_, ?_⟩
  · exact List.pairwise_map.mpr
      (take_sortDesc_pairwise (scoreOf q)
        (records.filter (fun r => decide (cutoff < scoreOf q r))) top_k)
  · rw [List.length_map]
    exact List.length_take_le top_k _
  · intro x hx
    obtain ⟨a, ha, hax⟩ := List.mem_map.mp hx
    have hafl := mem_of_mem_take_sortDesc (scoreOf q) _ top_k a ha
    obtain ⟨har, hadec⟩ := List.mem_filter.mp hafl
    exact ⟨a, har, of_decide_eq_true hadec, hax.symm⟩
  · intro hlen r hr hsc
    exact List.mem_map_of_mem (mkResult q)
      (mem_take_sortDesc_of_short (scoreOf q) _ top_k hlen r
        (List.mem_filter.mpr ⟨hr, decide_eq_true hsc⟩))
  · intro r hr hsc hnot x hx
    obtain ⟨a, ha, hax⟩ := List.mem_map.mp hx
    have hrfl : r ∈ records.filter (fun r => decide (cutoff < scoreOf q r)) :=
      List.mem_filter.mpr ⟨hr, decide_eq_true hsc⟩
    have hrnot : r ∉ (sortDesc (scoreOf q)
        (records.filter (fun r => decide (cutoff < scoreOf q r)))).take top_k := by
      intro hmem
      exact hnot (List.mem_map_of_mem (mkResult q) hmem)
    have := omitted_le_taken_sortDesc (scoreOf q) _ top_k r hrfl hrnot a ha
    rw [← hax]
    exact this

theorem search_filters_ranks_truncates_witness :
    (∀ r ∈ [(⟨0, "alpha", "refA", [1], none, ""⟩ : Record)],
      r.embedding.length = [(1 : ℝ)].length) ∧
    (∃ res, storeSearch [(⟨0, "alpha", "refA", [1], none, ""⟩ : Record)]
        [(1 : ℝ)] 0 10 = .ok res ∧
      res.Pairwise (fun a b => b.score ≤ a.score) ∧
      res.length ≤ 10 ∧
      (∀ x ∈ res, ∃ r ∈ [(⟨0, "alpha", "refA", [1], none, ""⟩ : Record)],
        (0 : ℝ) < scoreOf [(1 : ℝ)] r ∧ x = mkResult [(1 : ℝ)] r) ∧
      (([(⟨0, "alpha", "refA", [1], none, ""⟩ : Record)].filter
          (fun r => decide ((0 : ℝ) < scoreOf [(1 : ℝ)] r))).length ≤ 10 →
        ∀ r ∈ [(⟨0, "alpha", "refA", [1], none, ""⟩ : Record)],
          (0 : ℝ) < scoreOf [(1 : ℝ)] r → mkResult [(1 : ℝ)] r ∈ res) ∧
      (∀ r ∈ [(⟨0, "alpha", "refA", [1], none, ""⟩ : Record)],
        (0 : ℝ) < scoreOf [(1 : ℝ)] r → mkResult [(1 : ℝ)] r ∉ res →
        ∀ x ∈ res, scoreOf [(1 : ℝ)] r ≤ x.score)) := by
  have hdim : ∀ r ∈ [(⟨0, "alpha", "refA", [1], none, ""⟩ : Record)],
      r.embedding.length = [(1 : ℝ)].length := by
    intro r hr
    rw [List.mem_singleton.mp hr]
  exact ⟨hdim, search_filters_ranks_truncates
    [(⟨0, "alpha", "refA", [1], none, ""⟩ : Record)] [(1 : ℝ)] 0 10 hdim⟩

/-- C3: the delete-by-reference handler removes nothing — its body only
echoes the reference id.  On the spec's own scenario (record "alpha" under
reference "A" with embedding [1,0,0], record "beta" under "B" with
[0,1,0]), deleting reference "A" leaves the store intact, and the
subsequent search with query [1,0,0], cutoff 1/5 and top_k 10 still
returns the "A" record with score 1, so a record with the deleted
reference does reappear. -/
theorem delete_by_reference_removes_nothing :
    (delete_embeddings_by_reference
        ⟨[⟨0, "alpha", "A", [1, 0, 0], none, ""⟩,
          ⟨1, "beta", "B", [0, 1, 0], none, ""⟩], 2⟩ "A").1 =
      ⟨[⟨0, "alpha", "A", [1, 0, 0], none, ""⟩,
        ⟨1, "beta", "B", [0, 1, 0], none, ""⟩], 2⟩ ∧
    storeSearch (delete_embeddings_by_reference
        ⟨[⟨0, "alpha", "A", [1, 0, 0], none, ""⟩,
          ⟨1, "beta", "B", [0, 1, 0], none, ""⟩], 2⟩ "A").1.records
      [1, 0, 0] (1/5) 10 = .ok [⟨0, "alpha", "A", 1⟩] := by
  have hdA : dotp [(1 : ℝ), 0, 0] [1, 0, 0] = 1 := by norm_num [dotp]
  have hdB : dotp [(0 : ℝ), 1, 0] [1, 0, 0] = 0 := by norm_num [dotp]
  have hdBB : dotp [(0 : ℝ), 1, 0] [0, 1, 0] = 1 := by norm_num [dotp]
  have hsA : scoreOf [(1 : ℝ), 0, 0]
      (⟨0, "alpha", "A", [1, 0, 0], none, ""⟩ : Record) = 1 := by
    show (1 : ℝ) - (1 - dotp [1, 0, 0] [1, 0, 0] /
      (Real.sqrt (dotp [1, 0, 0] [1, 0, 0]) *
        Real.sqrt (dotp [1, 0, 0] [1, 0, 0]))) = 1
    rw [hdA, Real.sqrt_one]
    norm_num
  have hsB : scoreOf [(1 : ℝ), 0, 0]
      (⟨1, "beta", "B", [0, 1, 0], none, ""⟩ : Record) = 0 := by
    show (1 : ℝ) - (1 - dotp [0, 1, 0] [1, 0, 0] /
      (Real.sqrt (dotp [0, 1, 0] [0, 1, 0]) *
        Real.sqrt (dotp [1, 0, 0] [1, 0, 0]))) = 0
    rw [hdB, hdBB, hdA, Real.sqrt_one]
    norm_num
  refine ⟨rfl, ?_⟩
  have htA : (decide ((1 : ℝ)/5 < scoreOf [(1 : ℝ), 0, 0]
      (⟨0, "alpha", "A", [1, 0, 0], none, ""⟩ : Record))) = true :=
    decide_eq_true (by rw [hsA]; norm_num)
  have htB : (decide ((1 : ℝ)/5 < scoreOf [(1 : ℝ), 0, 0]
      (⟨1, "beta", "B", [0, 1, 0], none, ""⟩ : Record))) = false :=
    decide_eq_false (by rw [hsB]; norm_num)
  show storeSearch [⟨0, "alpha", "A", [1, 0, 0], none, ""⟩,
      ⟨1, "beta", "B", [0, 1, 0], none, ""⟩] [1, 0, 0] (1/5) 10 =
    .ok [⟨0, "alpha", "A", 1⟩]
  unfold storeSearch
  rw [if_pos (by rfl)]
  simp only [List.filter_cons, List.filter_nil, htA, htB, if_true, if_false,
    Bool.false_eq_true, ite_true, ite_false]
  simp only [sortDesc, insertDesc, List.take, List.map, mkResult]
  rw [hsA]

end PyEmbed
